import Mathlib

/-!
Verification of the scroll-animation and offset-tracking core of the
`VirtualizedList` component (`src/components/VirtualizedList/VirtualizedList.jsx`).

Pixel offsets and timestamps are modelled as exact rationals `ℚ` (the idealised
semantics of JavaScript numbers).  The mutable record `animationDataRef.current`
becomes the structure `AnimationData`; its JavaScript field
`animationStartTime`, which holds either a number or `undefined`, becomes
`Option ℚ` (`none` models `undefined`).  Each callback of the component becomes
an explicit state-passing function, and the recursive `requestAnimationFrame`
loop becomes a fold over an explicit list of frame timestamps.

The helper module `virtualized-list-service` (exporting `getNormalizedItems`,
`easeInOutQuint` and `getMaxOffset`) is imported by the component but its
source is not part of the repository snapshot; those three functions are
modelled from the spec, as marked in their doc comments.
-/

namespace VirtualizedList

/-- Modelled from the spec: the quintic ease-in-out function exported by the
missing `virtualized-list-service` module.
`if t < 0.5: 16·t⁵ else 1 − ((−2t+2)⁵)/2`. -/
def easeInOutQuint (t : ℚ) : ℚ :=
  if t < 1/2 then 16 * t ^ 5 else 1 - (-2 * t + 2) ^ 5 / 2

/-- One value of the normalized index: `itemId => { item, index, height, offsetTop }`
(comment at the `useMemo` for `normalizedItems` in `VirtualizedList.jsx`). -/
structure NormalizedEntry (α : Type) where
  item : α
  index : ℕ
  height : ℚ
  offsetTop : ℚ
  deriving DecidableEq

/-- Modelled from the spec: the single forward pass of `getNormalizedItems`
from the missing `virtualized-list-service` module, carrying the running
offset and the running position.  For the item at position `i`, `offsetTop`
is the running offset before processing `i`; afterwards the running offset
grows by `height(i)`. -/
def getNormalizedItemsAux (getId : α → String) (getHeight : α → ℚ) :
    ℚ → ℕ → List α → List (String × NormalizedEntry α)
  | _, _, [] => []
  | offset, idx, x :: xs =>
      (getId x, ⟨x, idx, getHeight x, offset⟩) ::
        getNormalizedItemsAux getId getHeight (offset + getHeight x) (idx + 1) xs

/-- Modelled from the spec: `getNormalizedItems(items, getId, getHeight)` from
the missing `virtualized-list-service` module builds the mapping
`itemId => { item, index, height, offsetTop }` in a single forward pass
starting from running offset 0.  The JavaScript object is modelled as an
association list in insertion order; lookup is by first matching key. -/
def getNormalizedItems (getId : α → String) (getHeight : α → ℚ) (items : List α) :
    List (String × NormalizedEntry α) :=
  getNormalizedItemsAux getId getHeight 0 0 items

/-- Modelled from the spec: total content height used by `getMaxOffset` —
`offsetTop` of the last item plus its height, `0` if the index is empty. -/
def totalContentHeight (entries : List (String × NormalizedEntry α)) : ℚ :=
  match entries.getLast? with
  | none => 0
  | some e => e.2.offsetTop + e.2.height

/-- Modelled from the spec: `getMaxOffset(viewportHeight, index)` from the
missing `virtualized-list-service` module: `max(0, totalContentHeight − viewportHeight)`. -/
def getMaxOffset (viewportHeight : ℚ) (entries : List (String × NormalizedEntry α)) : ℚ :=
  max 0 (totalContentHeight entries - viewportHeight)

/-- The mutable record `animationDataRef.current` of `VirtualizedList.jsx`.
`animationStartTime` is `some t` when the JavaScript field holds the number
`t` and `none` when it holds `undefined` (as assigned on animation
completion). -/
structure AnimationData where
  scrollOffsetInitial : ℚ
  scrollOffsetFinal : ℚ
  animationStartTime : Option ℚ
  deriving DecidableEq

/-- The initialisation block of `animationDataRef.current`:
`scrollOffsetInitial = 0; scrollOffsetFinal = 0; animationStartTime = 0`. -/
def initialAnimationData : AnimationData :=
  { scrollOffsetInitial := 0, scrollOffsetFinal := 0, animationStartTime := some 0 }

/-- JavaScript truthiness of the `animationStartTime` field, as tested by
`if (animationData.animationStartTime || …)`: `undefined` and the number `0`
are falsy, every other number is truthy. -/
def truthyStartTime : Option ℚ → Bool
  | none => false
  | some t => decide (t ≠ 0)

/-- The `onScrollCB` callback restricted to its effect on `animationData`
(it also stores the offset in `scrollTopRef` and forwards the event, which
touch no animation state): when `scrollUpdateWasRequested` is false the
baseline `scrollOffsetInitial` is overwritten with the event's offset. -/
def onScrollCB (d : AnimationData) (scrollOffset : ℚ)
    (scrollUpdateWasRequested : Bool) : AnimationData :=
  if scrollUpdateWasRequested then d
  else { d with scrollOffsetInitial := scrollOffset }

/-- `Math.min(1, ellapsed / scrollDuration)` as computed by `animateScroll`.
JavaScript division of a positive number by zero yields `+Infinity`, so for
`scrollDuration = 0` and positive `ellapsed` the minimum is `1`; that case is
modelled by the first branch.  (`ellapsed = 0` with `scrollDuration = 0`
yields `NaN` in JavaScript and is outside this model; frame timestamps are
strictly after the start time.) -/
def minOneRatio (ellapsed scrollDuration : ℚ) : ℚ :=
  if scrollDuration = 0 then 1 else min 1 (ellapsed / scrollDuration)

/-- The observable outcome of one body of the `requestAnimationFrame` callback
inside `animateScroll`: the updated animation record, the argument passed to
`listRef.current.scrollTo`, whether `onAnimationComplete` was invoked, and
whether `animateScroll()` was re-invoked to schedule the next frame. -/
structure FrameResult where
  data : AnimationData
  setterArg : ℚ
  completed : Bool
  scheduleNext : Bool
  deriving DecidableEq

/-- One frame of `animateScroll`, executed at timestamp `now`
(`performance.now()`).  Mirrors the callback body: `ellapsed = now −
animationStartTime`; `scrollDelta = scrollOffsetFinal − scrollOffsetInitial`;
`easedTime = easeInOutQuint(Math.min(1, ellapsed / scrollDuration))`;
`scrollOffset = scrollOffsetInitial + scrollDelta · easedTime`;
`scrollTo(Math.min(maxListOffset, scrollOffset))`; then either recurse
(`ellapsed < scrollDuration`) or clear the start time, commit the baseline and
fire `onAnimationComplete`.  Frames only ever run while `animationStartTime`
is a number; `Option.getD 0` extracts it. -/
def animateScrollFrame (scrollDuration maxListOffset : ℚ)
    (d : AnimationData) (now : ℚ) : FrameResult :=
  let ellapsed := now - d.animationStartTime.getD 0
  let scrollDelta := d.scrollOffsetFinal - d.scrollOffsetInitial
  let easedTime := easeInOutQuint (minOneRatio ellapsed scrollDuration)
  let scrollOffset := d.scrollOffsetInitial + scrollDelta * easedTime
  if ellapsed < scrollDuration then
    { data := d, setterArg := min maxListOffset scrollOffset,
      completed := false, scheduleNext := true }
  else
    { data := { d with animationStartTime := none,
                       scrollOffsetInitial := d.scrollOffsetFinal },
      setterArg := min maxListOffset scrollOffset,
      completed := true, scheduleNext := false }

/-- The whole frame loop of `animateScroll`, driven by an explicit list of
frame timestamps (the successive `performance.now()` values of the
`requestAnimationFrame` callbacks).  Returns the final animation record, the
list of arguments passed to `listRef.current.scrollTo`, and how many times
`onAnimationComplete` fired.  After a frame that does not re-invoke
`animateScroll`, no further frames run. -/
def runAnimation (scrollDuration maxListOffset : ℚ) :
    AnimationData → List ℚ → AnimationData × List ℚ × ℕ
  | d, [] => (d, [], 0)
  | d, now :: rest =>
      let r := animateScrollFrame scrollDuration maxListOffset d now
      if r.scheduleNext then
        let (d', calls, comps) := runAnimation scrollDuration maxListOffset r.data rest
        (d', r.setterArg :: calls, comps)
      else
        (r.data, [r.setterArg], if r.completed then 1 else 0)

/-- `startScrollAnimation(item)`: guard `if (animationData.animationStartTime
|| animationData.scrollOffsetFinal === offsetTop) return;` then record the
target, stamp the start time and begin the frame loop.  The returned boolean
records whether `animateScroll()` was invoked (an animation was started). -/
def startScrollAnimation (d : AnimationData) (offsetTop : ℚ) (now : ℚ) :
    AnimationData × Bool :=
  if truthyStartTime d.animationStartTime || d.scrollOffsetFinal = offsetTop then
    (d, false)
  else
    ({ d with scrollOffsetFinal := offsetTop, animationStartTime := some now }, true)

/-- The `useEffect` reacting to `scrollToId`: when `scrollToId` is truthy (a
non-empty string) the id is looked up in `normalizedItems`; a found item is
handed to `startScrollAnimation`, a missing one (`item && …`) does nothing. -/
def scrollToIdEffect (normalizedItems : List (String × NormalizedEntry α))
    (scrollToId : String) (d : AnimationData) (now : ℚ) : AnimationData × Bool :=
  if scrollToId = "" then (d, false)
  else
    match normalizedItems.lookup scrollToId with
    | none => (d, false)
    | some item => startScrollAnimation d item.offsetTop now

/-- A concrete item shape matching the component's `defaultProps`
(`getItemHeight = item => item.height`, `getItemId = item => item.id`),
used to instantiate the generic theorems. -/
structure Item where
  id : String
  height : ℚ
  deriving DecidableEq

/-- Default `getItemId` of the component. -/
def defaultGetItemId (x : Item) : String := x.id

/-- Default `getItemHeight` of the component. -/
def defaultGetItemHeight (x : Item) : ℚ := x.height

/-! ### Properties of the normalized index -/

lemma getNormalizedItemsAux_length (getId : α → String) (getHeight : α → ℚ)
    (off : ℚ) (idx : ℕ) (l : List α) :
    (getNormalizedItemsAux getId getHeight off idx l).length = l.length := by
  induction l generalizing off idx with
  | nil => rfl
  | cons x xs ih => simp [getNormalizedItemsAux, ih]

lemma getNormalizedItemsAux_getElem? (getId : α → String) (getHeight : α → ℚ)
    (off : ℚ) (idx : ℕ) (l : List α) (i : ℕ) :
    (getNormalizedItemsAux getId getHeight off idx l)[i]? =
      l[i]?.map fun x =>
        (getId x, ⟨x, idx + i, getHeight x, off + ((l.take i).map getHeight).sum⟩) := by
  induction l generalizing off idx i with
  | nil => simp [getNormalizedItemsAux]
  | cons x xs ih =>
    cases i with
    | zero => simp [getNormalizedItemsAux]
    | succ n =>
      rcases hy : xs[n]? with _ | y
      · simp [getNormalizedItemsAux, ih, hy]
      · simp only [getNormalizedItemsAux, List.getElem?_cons_succ, ih, hy,
          Option.map_some, List.take_succ_cons, List.map_cons, List.sum_cons]
        have hidx2 : idx + 1 + n = idx + (n + 1) := by omega
        have hoff : off + getHeight x + ((xs.take n).map getHeight).sum
            = off + (getHeight x + ((xs.take n).map getHeight).sum) := by ring
        simp only [hidx2, hoff]

lemma getNormalizedItemsAux_map_fst (getId : α → String) (getHeight : α → ℚ)
    (off : ℚ) (idx : ℕ) (l : List α) :
    (getNormalizedItemsAux getId getHeight off idx l).map Prod.fst = l.map getId := by
  induction l generalizing off idx with
  | nil => rfl
  | cons x xs ih => simp [getNormalizedItemsAux, ih]

lemma getNormalizedItemsAux_map_item (getId : α → String) (getHeight : α → ℚ)
    (off : ℚ) (idx : ℕ) (l : List α) :
    (getNormalizedItemsAux getId getHeight off idx l).map (fun e => e.2.item) = l := by
  induction l generalizing off idx with
  | nil => rfl
  | cons x xs ih => simp [getNormalizedItemsAux, ih]

lemma getNormalizedItems_length (getId : α → String) (getHeight : α → ℚ) (items : List α) :
    (getNormalizedItems getId getHeight items).length = items.length :=
  getNormalizedItemsAux_length getId getHeight 0 0 items

lemma getNormalizedItems_getElem? (getId : α → String) (getHeight : α → ℚ)
    (items : List α) (i : ℕ) :
    (getNormalizedItems getId getHeight items)[i]? =
      items[i]?.map fun x =>
        (getId x, ⟨x, i, getHeight x, ((items.take i).map getHeight).sum⟩) := by
  simpa using getNormalizedItemsAux_getElem? getId getHeight 0 0 items i

lemma getNormalizedItems_getElem (getId : α → String) (getHeight : α → ℚ)
    (items : List α) (i : ℕ) (hi : i < (getNormalizedItems getId getHeight items).length) :
    (getNormalizedItems getId getHeight items)[i] =
      (getId (items.get ⟨i, by simpa [getNormalizedItems_length] using hi⟩),
        ⟨items.get ⟨i, by simpa [getNormalizedItems_length] using hi⟩, i,
          getHeight (items.get ⟨i, by simpa [getNormalizedItems_length] using hi⟩),
          ((items.take i).map getHeight).sum⟩) := by
  have hi' : i < items.length := by simpa [getNormalizedItems_length] using hi
  have h1 := getNormalizedItems_getElem? getId getHeight items i
  rw [List.getElem?_eq_getElem hi, List.getElem?_eq_getElem hi'] at h1
  simpa using h1

/-- C5: `getNormalizedItems` over any ordered sequence of `n` items with
unique ids and positive heights produces a mapping with exactly `n` entries
(whose keys are distinct), in which `offsetTop(0) = 0` and
`offsetTop(i) = offsetTop(i−1) + height(i−1)` for all `i > 0`, and the input
sequence is preserved unchanged (in order) inside the entries. -/
theorem getNormalizedItems_spec (getId : α → String) (getHeight : α → ℚ)
    (items : List α) (huniq : (items.map getId).Nodup)
    (hpos : ∀ x ∈ items, 0 < getHeight x) :
    (getNormalizedItems getId getHeight items).length = items.length ∧
    ((getNormalizedItems getId getHeight items).map Prod.fst).Nodup ∧
    (∀ h0 : 0 < (getNormalizedItems getId getHeight items).length,
      ((getNormalizedItems getId getHeight items).get ⟨0, h0⟩).2.offsetTop = 0) ∧
    (∀ i : ℕ, ∀ hi : i + 1 < (getNormalizedItems getId getHeight items).length,
      ((getNormalizedItems getId getHeight items).get ⟨i + 1, hi⟩).2.offsetTop =
        ((getNormalizedItems getId getHeight items).get ⟨i, Nat.lt_of_succ_lt hi⟩).2.offsetTop +
          ((getNormalizedItems getId getHeight items).get ⟨i, Nat.lt_of_succ_lt hi⟩).2.height) ∧
    (getNormalizedItems getId getHeight items).map (fun e => e.2.item) = items := by
  refine ⟨getNormalizedItems_length getId getHeight items, ?_, ?_, ?_,
    getNormalizedItemsAux_map_item getId getHeight 0 0 items⟩
  · rw [show getNormalizedItems getId getHeight items
        = getNormalizedItemsAux getId getHeight 0 0 items from rfl,
      getNormalizedItemsAux_map_fst getId getHeight 0 0 items]
    exact huniq
  · intro h0
    rw [List.get_eq_getElem, getNormalizedItems_getElem getId getHeight items 0 h0]
    simp
  · intro i hi
    rw [List.get_eq_getElem, List.get_eq_getElem,
      getNormalizedItems_getElem getId getHeight items (i + 1) hi,
      getNormalizedItems_getElem getId getHeight items i (Nat.lt_of_succ_lt hi)]
    have hi' : i < items.length := by
      have := Nat.lt_of_succ_lt hi
      simpa [getNormalizedItems_length] using this
    have hsum : ((items.take (i + 1)).map getHeight).sum =
        ((items.take i).map getHeight).sum + getHeight (items.get ⟨i, hi'⟩) := by
      rw [List.map_take, List.map_take, List.sum_take_succ (items.map getHeight) i
        (by simpa using hi')]
      simp
    simpa using hsum

/-- Witness for C5 on the two-item sequence `[⟨"a", 20⟩, ⟨"b", 30⟩]` with the
component's default id and height accessors. -/
theorem getNormalizedItems_spec_witness :
    (getNormalizedItems defaultGetItemId defaultGetItemHeight
        [Item.mk "a" 20, Item.mk "b" 30]).length = 2 ∧
    (∀ hi : 0 + 1 < (getNormalizedItems defaultGetItemId defaultGetItemHeight
        [Item.mk "a" 20, Item.mk "b" 30]).length,
      ((getNormalizedItems defaultGetItemId defaultGetItemHeight
          [Item.mk "a" 20, Item.mk "b" 30]).get ⟨0 + 1, hi⟩).2.offsetTop =
        ((getNormalizedItems defaultGetItemId defaultGetItemHeight
          [Item.mk "a" 20, Item.mk "b" 30]).get ⟨0, Nat.lt_of_succ_lt hi⟩).2.offsetTop +
          ((getNormalizedItems defaultGetItemId defaultGetItemHeight
            [Item.mk "a" 20, Item.mk "b" 30]).get ⟨0, Nat.lt_of_succ_lt hi⟩).2.height) := by
  have h := getNormalizedItems_spec defaultGetItemId defaultGetItemHeight
    [Item.mk "a" 20, Item.mk "b" 30]
    (by simp [defaultGetItemId])
    (by intro x hx; fin_cases hx <;> norm_num [defaultGetItemHeight])
  exact ⟨h.1.trans rfl, fun hi => h.2.2.2.1 0 hi⟩

lemma totalContentHeight_getNormalizedItems (getId : α → String) (getHeight : α → ℚ)
    (items : List α) :
    totalContentHeight (getNormalizedItems getId getHeight items) =
      (items.map getHeight).sum := by
  rcases items.eq_nil_or_concat with rfl | ⟨l, x, rfl⟩
  · rfl
  · rw [List.concat_eq_append]
    have hlen : (getNormalizedItems getId getHeight (l ++ [x])).length = l.length + 1 := by
      simp [getNormalizedItems_length]
    have hne : getNormalizedItems getId getHeight (l ++ [x]) ≠ [] := by
      intro h
      rw [h] at hlen
      simp at hlen
    have hlast := List.getLast?_eq_getElem? (getNormalizedItems getId getHeight (l ++ [x]))
    have hidx : (getNormalizedItems getId getHeight (l ++ [x])).length - 1 = l.length := by
      omega
    rw [hidx, getNormalizedItems_getElem? getId getHeight (l ++ [x]) l.length] at hlast
    have hget : (l ++ [x])[l.length]? = some x := by
      simp
    rw [hget] at hlast
    unfold totalContentHeight
    rw [hlast]
    have htake : (l ++ [x]).take l.length = l := by
      simp
    simp only [Option.map_some, htake]
    simp [List.map_append, List.sum_append]

/-- C6: `getMaxOffset(viewportHeight, index)` returns
`max(0, totalContentHeight − viewportHeight)`, where `totalContentHeight` is
the `offsetTop` of the last item plus its height (equivalently, for a
normalized index, the sum of all item heights), and `0` when the index is
empty; the result is never negative. -/
theorem getMaxOffset_spec (v : ℚ) (entries : List (String × NormalizedEntry α))
    (getId : β → String) (getHeight : β → ℚ) (items : List β) :
    getMaxOffset v entries = max 0 (totalContentHeight entries - v) ∧
    0 ≤ getMaxOffset v entries ∧
    totalContentHeight ([] : List (String × NormalizedEntry α)) = 0 ∧
    totalContentHeight (getNormalizedItems getId getHeight items) =
      (items.map getHeight).sum :=
  ⟨rfl, le_max_left 0 _, rfl, totalContentHeight_getNormalizedItems getId getHeight items⟩

/-! ### Properties of the easing function -/

lemma easeInOutQuint_of_lt (t : ℚ) (h : t < 1/2) : easeInOutQuint t = 16 * t ^ 5 :=
  if_pos h

lemma easeInOutQuint_of_ge (t : ℚ) (h : ¬ t < 1/2) :
    easeInOutQuint t = 1 - (-2 * t + 2) ^ 5 / 2 :=
  if_neg h

lemma easeInOutQuint_nonneg (t : ℚ) (h0 : 0 ≤ t) : 0 ≤ easeInOutQuint t := by
  unfold easeInOutQuint
  split
  · exact mul_nonneg (by norm_num) (pow_nonneg h0 5)
  · rcases le_or_lt (-2 * t + 2) 0 with hu | hu
    · have h5 : (-2 * t + 2) ^ 5 ≤ 0 := Odd.pow_nonpos (by decide) hu
      linarith
    · have ht : 1/2 ≤ t := not_lt.mp (by assumption)
      have hu1 : (-2 : ℚ) * t + 2 ≤ 1 := by linarith
      have h5 : (-2 * t + 2) ^ 5 ≤ 1 := pow_le_one₀ hu.le hu1
      linarith

lemma easeInOutQuint_le_one (t : ℚ) (h1 : t ≤ 1) : easeInOutQuint t ≤ 1 := by
  unfold easeInOutQuint
  split
  · rcases le_or_lt t 0 with ht | ht
    · have h5 : t ^ 5 ≤ 0 := Odd.pow_nonpos (by decide) ht
      linarith
    · have hlt : t < 1/2 := by assumption
      have h5 : t ^ 5 ≤ (1/2 : ℚ) ^ 5 := pow_le_pow_left₀ ht.le hlt.le 5
      norm_num at h5
      linarith
  · have hu : (0 : ℚ) ≤ -2 * t + 2 := by linarith
    have h5 : (0 : ℚ) ≤ (-2 * t + 2) ^ 5 := pow_nonneg hu 5
    linarith

lemma easeInOutQuint_ge_half (t : ℚ) (h : 1/2 ≤ t) (h1 : t ≤ 1) :
    1/2 ≤ easeInOutQuint t := by
  rw [easeInOutQuint_of_ge t (not_lt.mpr h)]
  have hu0 : (0 : ℚ) ≤ -2 * t + 2 := by linarith
  have hu1 : (-2 : ℚ) * t + 2 ≤ 1 := by linarith
  have h5 : (-2 * t + 2) ^ 5 ≤ 1 := pow_le_one₀ hu0 hu1
  linarith

lemma easeInOutQuint_mono (t₁ t₂ : ℚ) (h0 : 0 ≤ t₁) (h12 : t₁ ≤ t₂) (h1 : t₂ ≤ 1) :
    easeInOutQuint t₁ ≤ easeInOutQuint t₂ := by
  rcases lt_or_le t₁ (1/2) with hlt1 | hge1
  · rcases lt_or_le t₂ (1/2) with hlt2 | hge2
    · rw [easeInOutQuint_of_lt t₁ hlt1, easeInOutQuint_of_lt t₂ hlt2]
      have h5 : t₁ ^ 5 ≤ t₂ ^ 5 := pow_le_pow_left₀ h0 h12 5
      linarith
    · calc easeInOutQuint t₁ ≤ 1/2 := by
            rw [easeInOutQuint_of_lt t₁ hlt1]
            have h5 : t₁ ^ 5 ≤ (1/2 : ℚ) ^ 5 := pow_le_pow_left₀ h0 hlt1.le 5
            norm_num at h5
            linarith
        _ ≤ easeInOutQuint t₂ := easeInOutQuint_ge_half t₂ hge2 h1
  · have hge2 : 1/2 ≤ t₂ := le_trans hge1 h12
    rw [easeInOutQuint_of_ge t₁ (not_lt.mpr hge1), easeInOutQuint_of_ge t₂ (not_lt.mpr hge2)]
    have hu0 : (0 : ℚ) ≤ -2 * t₂ + 2 := by linarith
    have hu12 : (-2 : ℚ) * t₂ + 2 ≤ -2 * t₁ + 2 := by linarith
    have h5 : (-2 * t₂ + 2) ^ 5 ≤ (-2 * t₁ + 2) ^ 5 := pow_le_pow_left₀ hu0 hu12 5
    linarith

lemma easeInOutQuint_one : easeInOutQuint 1 = 1 := by norm_num [easeInOutQuint]

lemma easeInOutQuint_zero : easeInOutQuint 0 = 0 := by norm_num [easeInOutQuint]

/-- C7: The easing function `easeInOutQuint` satisfies `f(t) = 16·t⁵` for
`t < 0.5` and `f(t) = 1 − ((−2t+2)⁵)/2` otherwise, with `f(0) = 0`,
`f(0.5) = 0.5`, `f(1) = 1`, output in `[0,1]` for inputs in `[0,1]`, and `f`
monotonically non-decreasing on `[0,1]`. -/
theorem easeInOutQuint_spec :
    (∀ t : ℚ, t < 1/2 → easeInOutQuint t = 16 * t ^ 5) ∧
    (∀ t : ℚ, ¬ t < 1/2 → easeInOutQuint t = 1 - (-2 * t + 2) ^ 5 / 2) ∧
    easeInOutQuint 0 = 0 ∧ easeInOutQuint (1/2) = 1/2 ∧ easeInOutQuint 1 = 1 ∧
    (∀ t : ℚ, 0 ≤ t → t ≤ 1 → 0 ≤ easeInOutQuint t ∧ easeInOutQuint t ≤ 1) ∧
    (∀ t₁ t₂ : ℚ, 0 ≤ t₁ → t₁ ≤ t₂ → t₂ ≤ 1 →
      easeInOutQuint t₁ ≤ easeInOutQuint t₂) :=
  ⟨easeInOutQuint_of_lt, easeInOutQuint_of_ge, easeInOutQuint_zero,
    by norm_num [easeInOutQuint], easeInOutQuint_one,
    fun t h0 h1 => ⟨easeInOutQuint_nonneg t h0, easeInOutQuint_le_one t h1⟩,
    easeInOutQuint_mono⟩

/-- Witness for C7 at concrete inputs `t = 1/4` and the pair `1/4 ≤ 3/4`. -/
theorem easeInOutQuint_spec_witness :
    easeInOutQuint (1/4) = 16 * (1/4 : ℚ) ^ 5 ∧
    easeInOutQuint (3/4) = 1 - (-2 * (3/4 : ℚ) + 2) ^ 5 / 2 ∧
    (0 ≤ easeInOutQuint (1/4 : ℚ) ∧ easeInOutQuint (1/4 : ℚ) ≤ 1) ∧
    easeInOutQuint (1/4 : ℚ) ≤ easeInOutQuint (3/4 : ℚ) :=
  ⟨easeInOutQuint_spec.1 (1/4) (by norm_num),
    easeInOutQuint_spec.2.1 (3/4) (by norm_num),
    easeInOutQuint_spec.2.2.2.2.2.1 (1/4) (by norm_num) (by norm_num),
    easeInOutQuint_spec.2.2.2.2.2.2 (1/4) (3/4) (by norm_num) (by norm_num) (by norm_num)⟩

/-! ### Properties of the animation frame loop -/

lemma animateScrollFrame_continue (dur maxO : ℚ) (d : AnimationData) (st now : ℚ)
    (hst : d.animationStartTime = some st) (h : now - st < dur) :
    animateScrollFrame dur maxO d now =
      { data := d,
        setterArg := min maxO (d.scrollOffsetInitial +
          (d.scrollOffsetFinal - d.scrollOffsetInitial) *
            easeInOutQuint (minOneRatio (now - st) dur)),
        completed := false, scheduleNext := true } := by
  unfold animateScrollFrame
  rw [hst]
  simp only [Option.getD_some]
  rw [if_pos h]

lemma animateScrollFrame_complete (dur maxO : ℚ) (d : AnimationData) (st now : ℚ)
    (hst : d.animationStartTime = some st) (h : dur ≤ now - st) :
    animateScrollFrame dur maxO d now =
      { data := { d with animationStartTime := none,
                         scrollOffsetInitial := d.scrollOffsetFinal },
        setterArg := min maxO (d.scrollOffsetInitial +
          (d.scrollOffsetFinal - d.scrollOffsetInitial) *
            easeInOutQuint (minOneRatio (now - st) dur)),
        completed := true, scheduleNext := false } := by
  unfold animateScrollFrame
  rw [hst]
  simp only [Option.getD_some]
  rw [if_neg (not_lt.mpr h)]

lemma runAnimation_comps_le_one (dur maxO : ℚ) (d : AnimationData) (times : List ℚ) :
    (runAnimation dur maxO d times).2.2 ≤ 1 := by
  induction times generalizing d with
  | nil => simp [runAnimation]
  | cons t rest ih =>
    by_cases hs : (animateScrollFrame dur maxO d t).scheduleNext
    · simp only [runAnimation, hs, if_true]
      exact ih (animateScrollFrame dur maxO d t).data
    · simp only [runAnimation, hs, if_false, Bool.false_eq_true]
      split <;> norm_num

lemma runAnimation_comps_eq_one (dur maxO : ℚ) (d : AnimationData) (st : ℚ)
    (hst : d.animationStartTime = some st) (times : List ℚ) :
    (∃ t ∈ times, st + dur ≤ t) → (runAnimation dur maxO d times).2.2 = 1 := by
  induction times with
  | nil => rintro ⟨t, ht, -⟩; simp at ht
  | cons t rest ih =>
    rintro ⟨u, hu, hule⟩
    by_cases hc : t - st < dur
    · have hr := animateScrollFrame_continue dur maxO d st t hst hc
      have hs : (animateScrollFrame dur maxO d t).scheduleNext = true := by rw [hr]
      have hd : (animateScrollFrame dur maxO d t).data = d := by rw [hr]
      simp only [runAnimation, hs, if_true, hd]
      rcases List.mem_cons.mp hu with rfl | hu'
      · exact absurd hule (by linarith)
      · exact ih ⟨u, hu', hule⟩
    · have hr := animateScrollFrame_complete dur maxO d st t hst (not_lt.mp hc)
      have hs : (animateScrollFrame dur maxO d t).scheduleNext = false := by rw [hr]
      have hcm : (animateScrollFrame dur maxO d t).completed = true := by rw [hr]
      simp [runAnimation, hs, hcm]

/-- C4: When a frame observes `elapsed ≥ scrollDuration`, `animateScroll`
does not re-invoke itself (no further frame is scheduled),
`animationStartTime` is cleared to `undefined`, `scrollOffsetInitial` is set
to `scrollOffsetFinal`, and `onAnimationComplete` fires on that frame; over
the whole frame loop the completion callback fires exactly once (never more
than once, and exactly once as soon as some frame timestamp reaches
`animationStartTime + scrollDuration`). -/
theorem animateScroll_completion_spec (dur maxO : ℚ) (d : AnimationData)
    (st now : ℚ) (times : List ℚ) (hst : d.animationStartTime = some st)
    (hnow : dur ≤ now - st) (hex : ∃ t ∈ times, st + dur ≤ t) :
    (animateScrollFrame dur maxO d now).scheduleNext = false ∧
    (animateScrollFrame dur maxO d now).completed = true ∧
    (animateScrollFrame dur maxO d now).data.animationStartTime = none ∧
    (animateScrollFrame dur maxO d now).data.scrollOffsetInitial = d.scrollOffsetFinal ∧
    (runAnimation dur maxO d times).2.2 = 1 ∧
    (∀ times2 : List ℚ, (runAnimation dur maxO d times2).2.2 ≤ 1) := by
  have hr := animateScrollFrame_complete dur maxO d st now hst hnow
  refine ⟨by rw [hr], by rw [hr], by rw [hr], by rw [hr],
    runAnimation_comps_eq_one dur maxO d st hst times hex,
    fun times2 => runAnimation_comps_le_one dur maxO d times2⟩

/-- Witness for C4: duration 32 starting at time 0, frames at 16 and 40;
the frame at 40 completes, and the loop fires the completion exactly once. -/
theorem animateScroll_completion_spec_witness :
    (animateScrollFrame 32 200 ⟨0, 100, some 0⟩ 40).scheduleNext = false ∧
    (animateScrollFrame 32 200 ⟨0, 100, some 0⟩ 40).data.animationStartTime = none ∧
    (runAnimation 32 200 ⟨0, 100, some 0⟩ [16, 40]).2.2 = 1 := by
  have h := animateScroll_completion_spec 32 200 ⟨0, 100, some 0⟩ 0 40 [16, 40] rfl
    (by norm_num) ⟨40, by norm_num, by norm_num⟩
  exact ⟨h.1, h.2.2.1, h.2.2.2.2.1⟩

lemma minOneRatio_clamp (e dur : ℚ) (hdur : 0 < dur) (he : 0 ≤ e) :
    minOneRatio e dur = max 0 (min 1 (e / dur)) := by
  unfold minOneRatio
  rw [if_neg (ne_of_gt hdur)]
  have h0 : (0 : ℚ) ≤ e / dur := div_nonneg he hdur.le
  rw [max_eq_right (le_min (by norm_num) h0)]

/-- C1: On every frame of an in-flight scroll animation (positive duration,
non-negative baseline, target and maximum offset, frame time not before the
start time), the offset handed to `listRef.current.scrollTo` equals
`scrollOffsetInitial + (scrollOffsetFinal − scrollOffsetInitial) ·
easeInOutQuint(clamp(elapsed/scrollDuration, 0, 1))` clamped to
`[0, maxListOffset]`; in particular it is never below `0` nor above
`maxListOffset`, and on any frame with `elapsed ≥ scrollDuration` the setter
receives `clamp(scrollOffsetFinal, 0, maxListOffset)`. -/
theorem animateScrollFrame_offset_spec (dur maxO : ℚ) (d : AnimationData)
    (st now : ℚ) (hst : d.animationStartTime = some st) (hdur : 0 < dur)
    (hnow : st ≤ now) (hinit : 0 ≤ d.scrollOffsetInitial)
    (hfin : 0 ≤ d.scrollOffsetFinal) (hmax : 0 ≤ maxO) :
    (animateScrollFrame dur maxO d now).setterArg =
      max 0 (min maxO (d.scrollOffsetInitial +
        (d.scrollOffsetFinal - d.scrollOffsetInitial) *
          easeInOutQuint (max 0 (min 1 ((now - st) / dur))))) ∧
    0 ≤ (animateScrollFrame dur maxO d now).setterArg ∧
    (animateScrollFrame dur maxO d now).setterArg ≤ maxO ∧
    (dur ≤ now - st →
      (animateScrollFrame dur maxO d now).setterArg =
        max 0 (min maxO d.scrollOffsetFinal)) := by
  have he : 0 ≤ now - st := by linarith
  have hsetter : (animateScrollFrame dur maxO d now).setterArg =
      min maxO (d.scrollOffsetInitial +
        (d.scrollOffsetFinal - d.scrollOffsetInitial) *
          easeInOutQuint (minOneRatio (now - st) dur)) := by
    unfold animateScrollFrame
    rw [hst]
    simp only [Option.getD_some]
    split <;> rfl
  have hratio := minOneRatio_clamp (now - st) dur hdur he
  set r := minOneRatio (now - st) dur with hr
  have hr0 : 0 ≤ r := by
    rw [hratio]; exact le_max_left 0 _
  have hr1 : r ≤ 1 := by
    rw [hratio]
    exact max_le (by norm_num) (min_le_left 1 _)
  have he0 : 0 ≤ easeInOutQuint r := easeInOutQuint_nonneg r hr0
  have he1 : easeInOutQuint r ≤ 1 := easeInOutQuint_le_one r hr1
  have hoff : 0 ≤ d.scrollOffsetInitial +
      (d.scrollOffsetFinal - d.scrollOffsetInitial) * easeInOutQuint r := by
    nlinarith [mul_nonneg hinit (sub_nonneg.mpr he1), mul_nonneg hfin he0]
  have hmin0 : 0 ≤ min maxO (d.scrollOffsetInitial +
      (d.scrollOffsetFinal - d.scrollOffsetInitial) * easeInOutQuint r) :=
    le_min hmax hoff
  refine ⟨?_, ?_, ?_, ?_⟩
  · rw [hsetter, ← hratio, max_eq_right hmin0]
  · rw [hsetter]; exact hmin0
  · rw [hsetter]; exact min_le_left maxO _
  · intro hend
    have hrone : r = 1 := by
      rw [hr]
      unfold minOneRatio
      rw [if_neg (ne_of_gt hdur)]
      rw [min_eq_left ((one_le_div hdur).mpr hend)]
    rw [hsetter, hrone, easeInOutQuint_one]
    rw [max_eq_right (le_min hmax (by linarith))]
    ring_nf

/-- Witness for C1: duration 32, start time 0, frame at 32 (elapsed =
duration): the setter receives the clamped target `max 0 (min 200 100)`. -/
theorem animateScrollFrame_offset_spec_witness :
    0 < (32 : ℚ) ∧
    (animateScrollFrame 32 200 ⟨0, 100, some 0⟩ 32).setterArg =
      max 0 (min 200 (100 : ℚ)) :=
  ⟨by norm_num,
    (animateScrollFrame_offset_spec 32 200 ⟨0, 100, some 0⟩ 0 32 rfl (by norm_num)
      (by norm_num) (by norm_num) (by norm_num) (by norm_num)).2.2.2 (by norm_num)⟩

/-- C2 counterexample: a user scroll event (`scrollUpdateWasRequested =
false`) arriving mid-animation leaves the start time and target unchanged,
yet the very next frame computes a different offset than it would have
without the event — `scrollOffsetInitial` is read on every frame of
`animateScroll`, not only at animation start. -/
theorem onScrollCB_midflight_counterexample :
    (onScrollCB ⟨0, 100, some 10⟩ 50 false).animationStartTime = some 10 ∧
    (onScrollCB ⟨0, 100, some 10⟩ 50 false).scrollOffsetFinal = 100 ∧
    (animateScrollFrame 32 1000 ⟨0, 100, some 10⟩ 26).setterArg = 50 ∧
    (animateScrollFrame 32 1000 (onScrollCB ⟨0, 100, some 10⟩ 50 false) 26).setterArg = 75 := by
  refine ⟨rfl, rfl, ?_, ?_⟩ <;>
    norm_num [animateScrollFrame, onScrollCB, easeInOutQuint, minOneRatio]

/-- C2 amended: an `onScrollCB` event with `scrollUpdateWasRequested = false`
during an in-flight animation overwrites only `scrollOffsetInitial`, leaving
`animationStartTime`, `scrollOffsetFinal`, the scheduling decision and the
completion behaviour of every frame unchanged; but because `animateScroll`
reads `scrollOffsetInitial` on every frame, the offsets computed by the
remaining frames interpolate from the new baseline (they are not unaffected,
as the counterexample shows). -/
theorem onScrollCB_user_scroll_spec (d : AnimationData) (x dur maxO now : ℚ) :
    onScrollCB d x false = { d with scrollOffsetInitial := x } ∧
    (onScrollCB d x false).animationStartTime = d.animationStartTime ∧
    (onScrollCB d x false).scrollOffsetFinal = d.scrollOffsetFinal ∧
    (animateScrollFrame dur maxO (onScrollCB d x false) now).scheduleNext =
      (animateScrollFrame dur maxO d now).scheduleNext ∧
    (animateScrollFrame dur maxO (onScrollCB d x false) now).completed =
      (animateScrollFrame dur maxO d now).completed ∧
    (animateScrollFrame dur maxO (onScrollCB d x false) now).data.animationStartTime =
      (animateScrollFrame dur maxO d now).data.animationStartTime ∧
    (animateScrollFrame dur maxO (onScrollCB d x false) now).setterArg =
      min maxO (x + (d.scrollOffsetFinal - x) *
        easeInOutQuint (minOneRatio (now - d.animationStartTime.getD 0) dur)) := by
  refine ⟨rfl, rfl, rfl, ?_, ?_, ?_, ?_⟩ <;>
    · unfold animateScrollFrame onScrollCB
      by_cases hc : now - d.animationStartTime.getD 0 < dur <;>
        simp [hc]

/-- C3: while `animationData.animationStartTime` is truthy, or when the
requested item's `offsetTop` equals the recorded `scrollOffsetFinal`,
`startScrollAnimation` is a no-op (state unchanged, `animateScroll` not
invoked); and two successive calls with the same target, the second arriving
before the first completes, start exactly one animation. -/
theorem startScrollAnimation_guard_spec (d : AnimationData)
    (offsetTop now now2 : ℚ) :
    ((truthyStartTime d.animationStartTime = true ∨ d.scrollOffsetFinal = offsetTop) →
      startScrollAnimation d offsetTop now = (d, false)) ∧
    ((truthyStartTime d.animationStartTime = false ∧ d.scrollOffsetFinal ≠ offsetTop) →
      (startScrollAnimation d offsetTop now).2 = true ∧
      (startScrollAnimation (startScrollAnimation d offsetTop now).1 offsetTop now2).2 = false ∧
      (startScrollAnimation (startScrollAnimation d offsetTop now).1 offsetTop now2).1 =
        (startScrollAnimation d offsetTop now).1) := by
  constructor
  · intro h
    unfold startScrollAnimation
    rcases h with h | h
    · rw [if_pos]
      rw [h]
      simp
    · rw [if_pos]
      simp [h]
  · rintro ⟨h1, h2⟩
    have hfirst : startScrollAnimation d offsetTop now =
        ({ d with scrollOffsetFinal := offsetTop, animationStartTime := some now }, true) := by
      unfold startScrollAnimation
      rw [if_neg]
      simp [h1, h2]
    have hsecond : startScrollAnimation
        { d with scrollOffsetFinal := offsetTop, animationStartTime := some now }
        offsetTop now2 =
        ({ d with scrollOffsetFinal := offsetTop, animationStartTime := some now }, false) := by
      unfold startScrollAnimation
      rw [if_pos]
      simp
    rw [hfirst, hsecond]
    exact ⟨rfl, rfl, rfl⟩

/-- Witness for C3: from the freshly initialised state, two successive calls
targeting offset 5 (first at time 1, second at time 2) start exactly one
animation; and a call on the fresh state targeting offset 0 is a no-op. -/
theorem startScrollAnimation_guard_spec_witness :
    (startScrollAnimation initialAnimationData 5 1).2 = true ∧
    (startScrollAnimation (startScrollAnimation initialAnimationData 5 1).1 5 2).2 = false ∧
    startScrollAnimation initialAnimationData 0 7 = (initialAnimationData, false) := by
  have h1 := (startScrollAnimation_guard_spec initialAnimationData 5 1 2).2
    ⟨by norm_num [initialAnimationData, truthyStartTime],
      by norm_num [initialAnimationData]⟩
  have h2 := (startScrollAnimation_guard_spec initialAnimationData 0 7 0).1
    (Or.inr (by norm_num [initialAnimationData]))
  exact ⟨h1.1, h1.2.1, h2⟩

/-- C8 counterexample: with `scrollDuration = −100`, baseline 0, target 100,
maximum offset 200 and elapsed 16, the first frame does complete the
animation in one step, but the scroll-setter receives the negative
extrapolated value `−65536/390625`, not the final clamped target
`max 0 (min 200 100) = 100` (and it is below 0). -/
theorem negativeDuration_counterexample :
    (animateScrollFrame (-100) 200 ⟨0, 100, some 0⟩ 16).scheduleNext = false ∧
    (animateScrollFrame (-100) 200 ⟨0, 100, some 0⟩ 16).completed = true ∧
    (animateScrollFrame (-100) 200 ⟨0, 100, some 0⟩ 16).setterArg < 0 ∧
    (animateScrollFrame (-100) 200 ⟨0, 100, some 0⟩ 16).setterArg ≠
      max 0 (min 200 (100 : ℚ)) := by
  refine ⟨?_, ?_, ?_, ?_⟩ <;>
    norm_num [animateScrollFrame, easeInOutQuint, minOneRatio]

/-- C8 amended: if `scrollDuration ≤ 0`, the first animation frame already
satisfies `elapsed ≥ scrollDuration`, so the animation completes in a single
step (no further frame scheduled, start time cleared, baseline committed) and
no crash occurs; for `scrollDuration = 0` the setter receives the final
(upper-clamped) target offset, but for negative `scrollDuration` the setter
receives the extrapolated offset
`scrollOffsetInitial + delta · easeInOutQuint(elapsed/scrollDuration)`, which
need not equal the final target. -/
theorem nonpositiveDuration_spec (dur maxO : ℚ) (d : AnimationData)
    (st now : ℚ) (hst : d.animationStartTime = some st) (hdur : dur ≤ 0)
    (hnow : st < now) :
    (animateScrollFrame dur maxO d now).scheduleNext = false ∧
    (animateScrollFrame dur maxO d now).completed = true ∧
    (animateScrollFrame dur maxO d now).data.animationStartTime = none ∧
    (animateScrollFrame dur maxO d now).data.scrollOffsetInitial = d.scrollOffsetFinal ∧
    (animateScrollFrame dur maxO d now).setterArg =
      min maxO (d.scrollOffsetInitial +
        (d.scrollOffsetFinal - d.scrollOffsetInitial) *
          easeInOutQuint (minOneRatio (now - st) dur)) ∧
    (dur = 0 → (animateScrollFrame dur maxO d now).setterArg =
      min maxO d.scrollOffsetFinal) := by
  have hend : dur ≤ now - st := by linarith
  have hr := animateScrollFrame_complete dur maxO d st now hst hend
  refine ⟨by rw [hr], by rw [hr], by rw [hr], by rw [hr], by rw [hr], ?_⟩
  intro h0
  rw [hr]
  subst h0
  unfold minOneRatio
  rw [if_pos rfl, easeInOutQuint_one]
  ring_nf

/-- Witness for C8 (amended) at `scrollDuration = 0`: the single frame
completes and the setter receives `min 200 100 = 100`. -/
theorem nonpositiveDuration_spec_witness :
    (0 : ℚ) ≤ 0 ∧
    (animateScrollFrame 0 200 ⟨0, 100, some 0⟩ 16).scheduleNext = false ∧
    (animateScrollFrame 0 200 ⟨0, 100, some 0⟩ 16).setterArg = min 200 (100 : ℚ) := by
  have h := nonpositiveDuration_spec 0 200 ⟨0, 100, some 0⟩ 0 16 rfl (by norm_num)
    (by norm_num)
  exact ⟨le_refl 0, h.1, h.2.2.2.2.2 rfl⟩

/-- C9: a `scrollToId` whose identifier is absent from the normalized index
is a silent no-op: the effect neither starts an animation nor changes the
animation state (and, being a total function, raises no error). -/
theorem scrollToIdEffect_missing_spec (normalizedItems : List (String × NormalizedEntry α))
    (sid : String) (d : AnimationData) (now : ℚ)
    (h : normalizedItems.lookup sid = none) :
    scrollToIdEffect normalizedItems sid d now = (d, false) := by
  unfold scrollToIdEffect
  split
  · rfl
  · rw [h]

/-- Witness for C9: looking up the id `"missing"` in an empty normalized
index is a no-op on the fresh animation state. -/
theorem scrollToIdEffect_missing_spec_witness :
    ([] : List (String × NormalizedEntry Item)).lookup "missing" = none ∧
    scrollToIdEffect ([] : List (String × NormalizedEntry Item)) "missing"
      initialAnimationData 0 = (initialAnimationData, false) :=
  ⟨rfl, scrollToIdEffect_missing_spec [] "missing" initialAnimationData 0 rfl⟩

/-- C10: in a freshly created instance `scrollOffsetFinal` is 0 and the guard
compares the requested `offsetTop` against it, so for an instance that has
never animated, scrolling to an item whose `offsetTop` is 0 — in particular
the first item of any non-empty sequence, whose `offsetTop` is 0 by
normalization — starts no animation and leaves the state unchanged (hence no
programmatic scroll-setter call is made). -/
theorem freshInstance_offsetZero_spec (items : List Item) (h : items ≠ []) (now : ℚ) :
    initialAnimationData.scrollOffsetFinal = 0 ∧
    (∀ hlen : 0 < (getNormalizedItems defaultGetItemId defaultGetItemHeight items).length,
      ((getNormalizedItems defaultGetItemId defaultGetItemHeight items).get
        ⟨0, hlen⟩).2.offsetTop = 0) ∧
    startScrollAnimation initialAnimationData 0 now = (initialAnimationData, false) ∧
    scrollToIdEffect (getNormalizedItems defaultGetItemId defaultGetItemHeight items)
      ((items.head h).id) initialAnimationData now = (initialAnimationData, false) := by
  have hstart : startScrollAnimation initialAnimationData 0 now =
      (initialAnimationData, false) := by
    unfold startScrollAnimation
    rw [if_pos]
    simp [initialAnimationData]
  obtain ⟨x, xs, rfl⟩ := List.exists_cons_of_ne_nil h
  refine ⟨rfl, ?_, hstart, ?_⟩
  · intro hlen
    rw [List.get_eq_getElem,
      getNormalizedItems_getElem defaultGetItemId defaultGetItemHeight (x :: xs) 0 hlen]
    simp
  · unfold scrollToIdEffect
    split
    · rfl
    · have hlk : (getNormalizedItems defaultGetItemId defaultGetItemHeight (x :: xs)).lookup
          (((x :: xs).head h).id) =
          some ⟨x, 0, defaultGetItemHeight x, 0⟩ := by
        simp [getNormalizedItems, getNormalizedItemsAux, List.lookup, defaultGetItemId]
      rw [hlk]
      exact hstart

/-- Witness for C10 on the one-item sequence `[⟨"a", 20⟩]`. -/
theorem freshInstance_offsetZero_spec_witness :
    [Item.mk "a" 20] ≠ [] ∧
    startScrollAnimation initialAnimationData 0 7 = (initialAnimationData, false) ∧
    scrollToIdEffect
      (getNormalizedItems defaultGetItemId defaultGetItemHeight [Item.mk "a" 20])
      (([Item.mk "a" 20].head (by simp)).id) initialAnimationData 7 =
      (initialAnimationData, false) := by
  have h := freshInstance_offsetZero_spec [Item.mk "a" 20] (by simp) 7
  exact ⟨by simp, h.2.2.1, h.2.2.2⟩

end VirtualizedList
